import Mathlib

/-!
# Verification development for `internal/web-claude2.go`

A shallow embedding of the web session driver: the process-wide model memo
cache (`cacheMods`, `_delMods`), organisation lookup (`getOrganization`),
the retry / model-fallback loop of `Reply`, and the stream parser `resolve`.

External collaborators are inputs of the model:
* the transport (`requests.Get`, `requests.RequestStream`) is a value of
  `Transport` per call;
* `time.Now()` is a clock reading (an `Int` number of nanoseconds);
* `encoding/json` decoding of a stream frame is a function
  `decode : Bytes → Option webClaude2Response`;
* `bufio.Reader.ReadLine` is a list of read outcomes.
-/

namespace ClaudeApi

/-! ## Constants -/

/-- Primary model name (`Mod`). -/
def Mod : String := "claude-2.0"

/-- Fallback model name (`Mod_V1`). -/
def Mod_V1 : String := "claude-2.1"

/-- Minimum retry budget (`gRetry`). -/
def gRetry : Int := 2

/-! ## Time -/

/-- Instants and durations, both counted in nanoseconds as `time.Duration` is. -/
abbrev Time := Int

/-- One minute (`time.Minute`), in nanoseconds. -/
def Minute : Int := 60 * 1000000000

/-- Later instant `t.Add(d)`. -/
def Time.Add (t : Time) (d : Int) : Time := t + d

/-- Strict comparison `t.Before(u)`. -/
def Time.Before (t u : Time) : Bool := decide (t < u)

/-! ## Model memo cache -/

/-- Cache value (`_mod`): the embedded `time.Time` and the model name. -/
structure _mod where
  time : Time
  model : String
  deriving DecidableEq, Repr

/-- The Go map `cacheMods`, as an association list read by first match. -/
abbrev Cache := List (String × _mod)

namespace Cache

/-- Map read `cacheMods[k]` with the comma-ok flag folded into `Option`. -/
def get : Cache → String → Option _mod
  | [], _ => none
  | (k', v) :: rest, k => if k' = k then some v else get rest k

/-- Builtin `delete(cacheMods, k)`. -/
def delete (c : Cache) (k : String) : Cache :=
  c.filter (fun e => decide (e.1 ≠ k))

/-- Map write `cacheMods[k] = v`. -/
def put (c : Cache) (k : String) (v : _mod) : Cache :=
  (k, v) :: delete c k

/-- Keys visited by `range cacheMods`. -/
def keys (c : Cache) : List String := c.map Prod.fst

end Cache

/-- Body of the `range` loop of `_delMods` at key `k`: the entry is read and,
when `v.Add(10 * time.Minute).Before(time.Now())`, deleted.  `clock k` is the
reading of `time.Now()` taken while `k` is visited. -/
def _delModsStep (clock : String → Time) (m : Cache) (k : String) : Cache :=
  match Cache.get m k with
  | some v => if Time.Before (Time.Add v.time (10 * Minute)) (clock k) then Cache.delete m k else m
  | none => m

/-- Eviction sweep `_delMods`: every key of the map is visited once. -/
def _delMods (clock : String → Time) (cacheMods : Cache) : Cache :=
  (Cache.keys cacheMods).foldl (_delModsStep clock) cacheMods

/-- Whether an entry is kept by the sweep at time `now`. -/
def fresh (now : Time) (v : _mod) : Bool :=
  !(Time.Before (Time.Add v.time (10 * Minute)) now)

/-! ## Errors, transport and responses -/

/-- Go `error` values that occur in the file. -/
inductive GoError where
  /-- Plain text errors: `errors.New(s)`, `fmt.Errorf`; also any transport or read error. -/
  | text (msg : String)
  /-- Structured rejection `*types.ErrorWrapper`: its `ErrorType.Message`
  and the text of its `Error()` method. -/
  | wrapper (message : String) (shown : String)
  /-- The sentinel `io.EOF`. -/
  | eof
  deriving DecidableEq, Repr

/-- Method `err.Error()`. -/
def GoError.Error : GoError → String
  | .text msg => msg
  | .wrapper _ shown => shown
  | .eof => "EOF"

/-- Test `errors.As(err, &wap)` for `wap *types.ErrorWrapper`, giving
`wap.ErrorType.Message` when it succeeds. -/
def GoError.asWrapper : GoError → Option String
  | .wrapper message _ => some message
  | _ => none

/-- The fields of `models.Response` read by the file. -/
structure Response where
  StatusCode : Int
  Text : String
  deriving DecidableEq, Repr

/-- What `io.ReadAll(response.Body)` followed by `json.Unmarshal(data, &wap)`
gives for the body of a response (consulted only when the status is ≥ 400). -/
inductive ErrorBody where
  | readFail (e : GoError)
  | undecodable (data : String)
  | wrapper (message : String) (shown : String)
  deriving DecidableEq, Repr

/-- Result of one call of `requests.Get` / `requests.RequestStream`. -/
inductive Transport where
  | fail (e : GoError)
  | reply (response : Response) (body : ErrorBody)
  deriving DecidableEq, Repr

/-- The tail of `newRequest` (from the transport call on): transport errors are
passed on, a status ≥ 400 becomes an error, any other response is returned. -/
def newRequest (t : Transport) : Except GoError Response :=
  match t with
  | .fail err => .error err
  | .reply response body =>
    if response.StatusCode ≥ 400 then
      match body with
      | .readFail err => .error err
      | .undecodable data => .error (.text (toString response.StatusCode ++ ": " ++ data))
      | .wrapper message shown => .error (.wrapper message shown)
    else
      .ok response

/-! ## Session state -/

/-- The receiver `WebClaude2`; `mu` is `true` while the mutex is held. -/
structure WebClaude2 where
  mu : Bool
  Retry : Int
  mod : String
  organizationId : String
  conversationId : String
  deriving DecidableEq, Repr

/-- Result of a helper that may return `nil`, return an error, or panic. -/
inductive Outcome (α : Type) where
  | ok (a : α)
  | err (e : GoError)
  | panic (msg : String)
  deriving Repr

/-- A decoded JSON value stored in an `any`. -/
inductive JVal where
  | null
  | bool (b : Bool)
  | num (n : Int)
  | str (s : String)
  | arr (items : List JVal)
  | obj (fields : List (String × JVal))

/-- Comparison `uid != nil`. -/
def JVal.notNil : JVal → Bool
  | .null => false
  | _ => true

/-- Comparison `uid != ""` of an interface value with a string constant. -/
def JVal.notEmptyString : JVal → Bool
  | .str s => decide (s ≠ "")
  | _ => true

/-- Outcome of reading and decoding the body of the organisation lookup:
`io.ReadAll`, then `json.Unmarshal` into `[]map[string]any`. -/
inductive OrgBody where
  | readFail (e : GoError)
  | decodeFail (e : GoError)
  | decoded (result : List (List (String × JVal)))

/-- Outcome of reading and decoding the body of the conversation creation
(`json.Unmarshal` into `Kv`, a `map[string]string`). -/
inductive ConvBody where
  | readFail (e : GoError)
  | decodeFail (e : GoError)
  | decoded (result : List (String × String))

/-- Map read `m["uuid"]` on a `map[string]any`: a missing key reads as `nil`. -/
def anyAt (m : List (String × JVal)) (key : String) : JVal :=
  (m.lookup key).getD JVal.null

/-- Method `getOrganization`. -/
def getOrganization (wc : WebClaude2) (t : Transport) (body : OrgBody) : Outcome WebClaude2 :=
  match newRequest t with
  | .error err => .err (.text ("failed to fetch the `organizationId`: " ++ err.Error))
  | .ok _ =>
    match body with
    | .readFail e => .err e
    | .decodeFail e => .err e
    | .decoded result =>
      match result with
      | [] => .panic "index out of range [0] with length 0"
      | first :: _ =>
        let uid := anyAt first "uuid"
        if uid.notNil && uid.notEmptyString then
          match uid with
          | .str s => .ok { wc with organizationId := s }
          | _ => .panic "interface conversion: interface is not string"
        else
          .err (.text "failed to fetch the `organizationId`")

/-- Method `createConversation`. -/
def createConversation (wc : WebClaude2) (t : Transport) (body : ConvBody) : Outcome WebClaude2 :=
  if wc.organizationId = "" then
    .err (.text "there is no corresponding `organizationId`")
  else
    match newRequest t with
    | .error err => .err (.text ("failed to fetch the `conversationId`: " ++ err.Error))
    | .ok _ =>
      match body with
      | .readFail e => .err e
      | .decodeFail e => .err e
      | .decoded result =>
        let uid := (result.lookup "uuid").getD ""
        if uid ≠ "" then .ok { wc with conversationId := uid }
        else .err (.text "failed to fetch the `conversationId`")

/-- Method `PostMessage`; the prompt and attachments are forwarded unread. -/
def PostMessage (wc : WebClaude2) (t : Transport) : Except GoError Response :=
  if wc.organizationId = "" then
    .error (.text "there is no corresponding `organization-id`")
  else if wc.conversationId = "" then
    .error (.text "there is no corresponding `conversation-id`")
  else
    newRequest t

/-! ## Reply -/

/-- One call of `PostMessage` made by `Reply`: the loop index and the
`completion.model`, `organization_uuid` and `conversation_uuid` parameters. -/
structure PostAttempt where
  index : Int
  model : String
  organization_uuid : String
  conversation_uuid : String
  deriving DecidableEq, Repr

/-- Everything outside the call: the answers of the remote service and the clock. -/
structure Env where
  /-- Answer to `GET organizations`. -/
  orgTransport : Transport
  orgBody : OrgBody
  /-- Answer to `POST organizations/{org}/chat_conversations`. -/
  convTransport : Transport
  convBody : ConvBody
  /-- Answer to the `PostMessage` call of loop index `i`. -/
  post : Int → Transport
  /-- Reading of `time.Now()`: index 0 before the loop, index `i` in iteration `i`. -/
  now : Int → Time

/-- The session, the global `cacheMods`, and the log of `PostMessage` calls. -/
structure State where
  wc : WebClaude2
  cacheMods : Cache
  attempts : List PostAttempt
  deriving DecidableEq, Repr

/-- How a call of `Reply` ends. -/
inductive ReplyResult where
  /-- The call waits for ever in `wc.mu.Lock()`. -/
  | blocked
  /-- A run-time panic. -/
  | panic (msg : String)
  /-- Return of `nil, err`. -/
  | error (e : GoError)
  /-- Return of `message, nil`; `resolve` has been started on `response`. -/
  | channel (response : Response)
  /-- The model ran out of fuel (never the case, see `Reply`). -/
  | outOfFuel
  deriving DecidableEq, Repr

/-- How the retry loop is left. -/
inductive LoopExit where
  /-- Statement `return nil, err` inside the loop. -/
  | returned (e : GoError)
  /-- By `break` or by the loop condition, with the value of `response`. -/
  | left (response : Option Response)
  | outOfFuel
  deriving DecidableEq, Repr

/-- The retry loop `for index := 1; index <= wc.Retry; index++` from `index` on. -/
def retryLoop (env : Env) : Nat → Int → State → LoopExit × State
  | 0, _, s => (.outOfFuel, s)
  | fuel + 1, index, s =>
    if index ≤ s.wc.Retry then
      let s1 : State := { s with attempts := s.attempts ++
        [⟨index, s.wc.mod, s.wc.organizationId, s.wc.conversationId⟩] }
      match PostMessage s.wc (env.post index) with
      | .error err =>
        if index ≥ s.wc.Retry then
          (.returned err, { s1 with
            cacheMods := Cache.delete s.cacheMods s.wc.organizationId,
            wc := { s.wc with mu := false } })
        else
          match err.asWrapper with
          | some message =>
            if message = "Invalid model" then
              let wc1 : WebClaude2 := if s.wc.mod = Mod then { s.wc with mod := Mod_V1 } else s.wc
              retryLoop env fuel (index + 1) { s1 with
                wc := wc1,
                cacheMods := Cache.put s.cacheMods wc1.organizationId ⟨env.now index, wc1.mod⟩ }
            else
              retryLoop env fuel (index + 1) s1
          | none => retryLoop env fuel (index + 1) s1
      | .ok r => (.left (some r), s1)
    else
      (.left none, s)

/-- The first statements of `Reply`: the mutex is taken, `Retry` is raised to
`gRetry` when below it, and an empty model name is replaced by `Mod`. -/
def ReplyEnter (wc : WebClaude2) : WebClaude2 :=
  let wc : WebClaude2 := { wc with mu := true }
  let wc : WebClaude2 := if wc.Retry < gRetry then { wc with Retry := gRetry } else wc
  if wc.mod = "" then { wc with mod := Mod } else wc

/-- The part of `Reply` before the loop: lock, clamp of `Retry`, default model,
lazy resolution of the two identifiers, and the memo cache read and write.
`Except.error` is an early end of `Reply`. -/
def ReplySetup (env : Env) (s : State) : Except (ReplyResult × State) State :=
  if s.wc.mu then .error (.blocked, s) else
  let wc := ReplyEnter s.wc
  match (if wc.organizationId = "" then getOrganization wc env.orgTransport env.orgBody
         else Outcome.ok wc) with
  | .err e => .error (.error e, { s with wc := { wc with mu := false } })
  | .panic msg => .error (.panic msg, { s with wc := wc })
  | .ok wc =>
    match (if wc.conversationId = "" then createConversation wc env.convTransport env.convBody
           else Outcome.ok wc) with
    | .err e => .error (.error e, { s with wc := { wc with mu := false } })
    | .panic msg => .error (.panic msg, { s with wc := wc })
    | .ok wc =>
      let wc : WebClaude2 :=
        match Cache.get s.cacheMods wc.organizationId with
        | some m => { wc with mod := m.model }
        | none => wc
      .ok { s with wc := wc,
                   cacheMods := Cache.put s.cacheMods wc.organizationId ⟨env.now 0, wc.mod⟩ }

/-- The part of `Reply` from the loop on.  The loop gets one unit of fuel per
iteration and one for the last test of its condition. -/
def ReplyPost (env : Env) (s : State) : ReplyResult × State :=
  match retryLoop env (s.wc.Retry.toNat + 1) 1 s with
  | (.returned e, s1) => (.error e, s1)
  | (.outOfFuel, s1) => (.outOfFuel, s1)
  | (.left none, s1) => (.panic "invalid memory address or nil pointer dereference", s1)
  | (.left (some response), s1) =>
    if response.StatusCode ≠ 200 then (.error (.text response.Text), s1)
    else (.channel response, s1)

/-- Method `Reply`, up to the start of `resolve`. -/
def Reply (env : Env) (s : State) : ReplyResult × State :=
  match ReplySetup env s with
  | .error r => r
  | .ok s1 => ReplyPost env s1

/-! ## Stream parser -/

/-- Byte strings (`[]byte`). -/
abbrev Bytes := List UInt8

/-- The frame marker `block`, the bytes of `data: ` (with its trailing blank). -/
def block : Bytes := [100, 97, 116, 97, 58, 32]

/-- The one-byte string of a closing brace. -/
def closeBrace : Bytes := [125]

/-- Function `bytes.HasPrefix`. -/
def bytesHasPrefix (s p : Bytes) : Bool := p.isPrefixOf s

/-- Function `bytes.HasSuffix`. -/
def bytesHasSuffix (s p : Bytes) : Bool := p.isSuffixOf s

/-- Function `bytes.TrimPrefix`. -/
def bytesTrimPrefix (s p : Bytes) : Bytes :=
  if bytesHasPrefix s p then s.drop p.length else s

/-- Decoded frame (`webClaude2Response`); `Exception` is kept as text. -/
structure webClaude2Response where
  Completion : String
  StopReason : String
  Model : String
  Truncated : Bool
  Stop : String
  LogId : String
  Exception : Option String
  MessageLimitType : String
  deriving DecidableEq, Repr

/-- Stands for `CatchUnmarshal(dst, &response)`: `none` when it returns an
error, else the decoded value. -/
abbrev Decoder := Bytes → Option webClaude2Response

/-- Notification sent on the channel (`types.PartialResponse`). -/
structure PartialResponse where
  Text : String
  RawData : Bytes
  Error : Option GoError
  deriving DecidableEq, Repr

/-- One result `line, hasMore, err` of `reader.ReadLine()`. -/
structure ReadResult where
  line : Bytes
  hasMore : Bool
  err : Option GoError
  deriving DecidableEq, Repr

/-- What the closure `handle` leaves behind: the buffer `original`, the
notifications it sent, and its return value (`true` ends the polling). -/
structure Handled where
  original : Bytes
  sent : List PartialResponse
  stop : Bool
  deriving DecidableEq, Repr

/-- Closure `handle` of `resolve`, for the read result `r`. -/
def handle (decode : Decoder) (original : Bytes) (r : ReadResult) : Handled :=
  let original := original ++ r.line
  if r.hasMore then ⟨original, [], false⟩
  else if r.err = some GoError.eof then ⟨original, [], true⟩
  else
    match r.err with
    | some err => ⟨original, [⟨"", [], some err⟩], true⟩
    | none =>
      let dst := original
      let original : Bytes := []
      if !bytesHasPrefix dst block then ⟨original, [], false⟩
      else if !bytesHasSuffix dst closeBrace then ⟨original, [], false⟩
      else
        let dst := bytesTrimPrefix dst block
        match decode dst with
        | none => ⟨original, [], false⟩
        | some response =>
          ⟨original, [⟨response.Completion, dst, none⟩],
            decide (response.StopReason = "stop_sequence")⟩

/-- One turn of the `for { select { ... } }` loop of `resolve`: either
`ctx.Done()` is ready, or `handle` runs and gets a read result. -/
inductive Tick where
  | done
  | read (r : ReadResult)
  deriving DecidableEq, Repr

/-- What the caller sees of a run of `resolve`: the notifications in order and
whether the channel has been closed (the deferred `close(message)` and
`wc.mu.Unlock()` have run). -/
structure Run where
  sent : List PartialResponse
  closed : Bool
  deriving DecidableEq, Repr

/-- The polling loop of `resolve` on the turns `ticks`, from buffer `original`.
When the turns are used up the goroutine is still waiting for its next read. -/
def resolveLoop (decode : Decoder) : Bytes → List Tick → Run
  | _, [] => ⟨[], false⟩
  | _, .done :: _ => ⟨[⟨"", [], some (GoError.text "resolve timeout")⟩], true⟩
  | original, .read r :: rest =>
    let h := handle decode original r
    if h.stop then ⟨h.sent, true⟩
    else
      let run := resolveLoop decode h.original rest
      ⟨h.sent ++ run.sent, run.closed⟩

/-- Method `resolve` on a response whose body reads as `ticks`. -/
def resolve (decode : Decoder) (ticks : List Tick) : Run :=
  resolveLoop decode [] ticks

/-! ## Streams as logical lines -/

/-- A logical line: the physical reads that reported more data pending
(`chunks`), then the read that completed it. -/
structure Line where
  chunks : List Bytes
  last : Bytes
  err : Option GoError
  deriving DecidableEq, Repr

/-- The bytes of the whole line. -/
def Line.bytes (l : Line) : Bytes := l.chunks.flatten ++ l.last

/-- The physical reads of a line. -/
def Line.reads (l : Line) : List Tick :=
  l.chunks.map (fun c => Tick.read ⟨c, true, none⟩) ++ [Tick.read ⟨l.last, false, l.err⟩]

/-- An item of a stream: a cancellation seen by the loop, or a logical line. -/
inductive Item where
  | cancel
  | line (l : Line)
  deriving DecidableEq, Repr

/-- The turns of the loop for an item. -/
def Item.ticks : Item → List Tick
  | .cancel => [Tick.done]
  | .line l => l.reads

/-- The turns of the loop for a stream of items. -/
def streamTicks (items : List Item) : List Tick :=
  (items.map Item.ticks).flatten

/-- A line read without error is a data frame when it starts with the marker,
ends with a closing brace, and the rest decodes. -/
def isFrame (decode : Decoder) (b : Bytes) : Bool :=
  bytesHasPrefix b block && bytesHasSuffix b closeBrace && (decode (bytesTrimPrefix b block)).isSome

/-- A completed line, read without error, that is not a data frame. -/
def Item.discarded (decode : Decoder) : Item → Bool
  | .cancel => false
  | .line l => l.err.isNone && !isFrame decode l.bytes

/-- The notifications a list of decoded frames should give, following the
specification: one per frame up to and including the first whose stop
reason is `stop_sequence`. -/
def framesUntilStop : List (Bytes × webClaude2Response) → List PartialResponse
  | [] => []
  | (raw, ev) :: rest =>
    ⟨ev.Completion, raw, none⟩ ::
      (if ev.StopReason = "stop_sequence" then [] else framesUntilStop rest)

/-- The frame a completed line stands for, following the specification: the
line must pass the frame test; the marker is stripped and the remainder
decoded.  A line that is not a frame stands for nothing. -/
def frameOf (decode : Decoder) (l : Line) : Option (Bytes × webClaude2Response) :=
  if isFrame decode l.bytes then
    (decode (bytesTrimPrefix l.bytes block)).map (fun ev => (bytesTrimPrefix l.bytes block, ev))
  else none

/-- Whether a notification carries an error. -/
def PartialResponse.isError (p : PartialResponse) : Bool := p.Error.isSome

/-- ASCII text as bytes (for examples). -/
def ascii (s : String) : Bytes := s.toList.map (fun c => UInt8.ofNat c.toNat)

/-- How the retry loop, entered at index `i` in state `s`, ends in `res`: it
made the attempts `i .. n`, all before `n` failed, and either attempt `n`
gave the response held on exit, or `n` is the last index, its error was
returned, the cache entry is gone and the mutex is free. -/
def LoopSpec (env : Env) (i : Int) (s : State) (res : LoopExit × State) : Prop :=
  ∃ (n : Int) (new : List PostAttempt), i ≤ n ∧ n ≤ s.wc.Retry ∧
    res.2.attempts = s.attempts ++ new ∧ (new.length : Int) = n - i + 1 ∧
    (∀ j, i ≤ j → j < n → ∃ e, newRequest (env.post j) = .error e) ∧
    ((∃ r, res.1 = .left (some r) ∧ newRequest (env.post n) = .ok r) ∨
     (∃ e, res.1 = .returned e ∧ n = s.wc.Retry ∧ newRequest (env.post n) = .error e ∧
        Cache.get res.2.cacheMods s.wc.organizationId = none ∧ res.2.wc.mu = false))

/-! ## Example inputs -/

/-- A rejection with status 400 and the message `Invalid model`. -/
def rejectInvalidModel : Transport :=
  .reply ⟨400, ""⟩ (.wrapper "Invalid model" "Invalid model")

/-- A streaming answer with status 200. -/
def accept200 : Transport := .reply ⟨200, ""⟩ (.undecodable "")

/-- An answer with status 204 (below 400, not 200). -/
def answer204 : Transport := .reply ⟨204, "no content"⟩ (.undecodable "")

/-- A connection failure. -/
def connectionReset : Transport := .fail (.text "connection reset")

/-- An environment whose look-ups succeed and whose posts are answered by `post`. -/
def envWith (post : Int → Transport) : Env :=
  { orgTransport := accept200,
    orgBody := .decoded [[("uuid", .str "org")]],
    convTransport := accept200,
    convBody := .decoded [("uuid", "conv")],
    post := post,
    now := fun i => 1000 + i }

/-- An environment whose organisation look-up answers with `body`. -/
def envOrg (body : OrgBody) : Env :=
  { envWith (fun _ => accept200) with orgBody := body }

/-- A fresh session with both identifiers resolved and retry value `r`. -/
def resolvedSession (r : Int) : State :=
  { wc := ⟨false, r, "", "org", "conv"⟩, cacheMods := [], attempts := [] }

/-- A fresh session with no identifier resolved. -/
def newSession : State :=
  { wc := ⟨false, 0, Mod, "", ""⟩, cacheMods := [], attempts := [] }

/-- First physical read of the split example line: the marker, then
`\x7b"completion":"x"`. -/
def splitHead : Bytes := ascii "data: \x7b\"completion\":\"x\""

/-- Second physical read of the split example line: `,"stop_reason":null\x7d`. -/
def splitTail : Bytes := ascii ",\"stop_reason\":null\x7d"

/-- The JSON text of the split example line. -/
def splitJson : Bytes := ascii "\x7b\"completion\":\"x\",\"stop_reason\":null\x7d"

/-- A decoded frame with the given text and stop reason. -/
def event (completion stopReason : String) : webClaude2Response :=
  ⟨completion, stopReason, "", false, "", "", none, ""⟩

/-- A decoder that knows three JSON texts: `splitJson`, and the texts `A` and
`B` standing for the frames `Hel` and `lo`. -/
def exampleDecoder : Decoder := fun b =>
  if b = splitJson then some (event "x" "")
  else if b = ascii "\x7bA\x7d" then some (event "Hel" "")
  else if b = ascii "\x7bB\x7d" then some (event "lo" "stop_sequence")
  else none

/-- The line `data: ` followed by `\x7bA\x7d`, in one read. -/
def lineA : Line := ⟨[], ascii "data: \x7bA\x7d", none⟩

/-- The line `data: ` followed by `\x7bB\x7d`, in two reads. -/
def lineB : Line := ⟨[ascii "data: "], ascii "\x7bB\x7d", none⟩

/-- A keep-alive comment line. -/
def lineComment : Line := ⟨[], ascii ": ping", none⟩

/-! ## Cache lemmas -/

theorem Cache.get_delete (c : Cache) (k k' : String) :
    Cache.get (Cache.delete c k) k' = if k' = k then none else Cache.get c k' := by
  induction c with
  | nil => simp [Cache.delete, Cache.get]
  | cons e rest ih =>
    obtain ⟨a, v⟩ := e
    simp only [Cache.delete] at ih
    by_cases hak : a = k
    · have hf : Cache.delete ((a, v) :: rest) k = rest.filter (fun e => decide (e.1 ≠ k)) := by
        simp [Cache.delete, List.filter_cons, hak]
      rw [hf, ih]
      by_cases hk : k' = k
      · simp [hk]
      · have hk2 : ¬ a = k' := fun h => hk (h ▸ hak)
        simp [hk, Cache.get, hk2]
    · have hf : Cache.delete ((a, v) :: rest) k
          = (a, v) :: rest.filter (fun e => decide (e.1 ≠ k)) := by
        simp [Cache.delete, List.filter_cons, hak]
      rw [hf]
      simp only [Cache.get]
      by_cases hak2 : a = k'
      · have hk : ¬ k' = k := fun h => hak (hak2.trans h)
        simp [hak2, hk]
      · simp only [hak2, if_false]
        exact ih

theorem Cache.get_put (c : Cache) (k k' : String) (v : _mod) :
    Cache.get (Cache.put c k v) k' = if k' = k then some v else Cache.get c k' := by
  by_cases h : k' = k
  · subst h
    simp [Cache.put, Cache.get]
  · have h2 : ¬ k = k' := fun e => h e.symm
    simp [Cache.put, Cache.get, h, h2, Cache.get_delete]

theorem Cache.get_eq_none_of_not_mem (c : Cache) (k : String) (h : k ∉ Cache.keys c) :
    Cache.get c k = none := by
  induction c with
  | nil => rfl
  | cons e rest ih =>
    obtain ⟨a, v⟩ := e
    simp only [Cache.keys, List.map_cons, List.mem_cons, not_or] at h
    have h1 : ¬ a = k := fun e => h.1 e.symm
    simp only [Cache.get, h1, if_false]
    exact ih h.2

theorem get_delModsStep (clock : String → Time) (m : Cache) (k k' : String) :
    Cache.get (_delModsStep clock m k) k' =
      if k' = k then (Cache.get m k').filter (fresh (clock k')) else Cache.get m k' := by
  unfold _delModsStep
  by_cases hk : k' = k
  · subst hk
    cases hg : Cache.get m k' with
    | none => simp [hg]
    | some v =>
      by_cases hb : Time.Before (Time.Add v.time (10 * Minute)) (clock k') = true
      · simp [hb, Cache.get_delete, fresh, Option.filter]
      · simp [hb, hg, fresh, Option.filter]
  · cases hg : Cache.get m k with
    | none => simp [hk]
    | some v =>
      by_cases hb : Time.Before (Time.Add v.time (10 * Minute)) (clock k) = true
      · simp [hb, hk, Cache.get_delete]
      · simp [hb, hk]

theorem get_foldl_delModsStep (clock : String → Time) (ks : List String) (m : Cache) (k' : String) :
    Cache.get (ks.foldl (_delModsStep clock) m) k' =
      if k' ∈ ks then (Cache.get m k').filter (fresh (clock k')) else Cache.get m k' := by
  induction ks generalizing m with
  | nil => simp
  | cons k ks ih =>
    rw [List.foldl_cons, ih, get_delModsStep]
    by_cases hk : k' = k
    · subst hk
      by_cases hm : k' ∈ ks
      · cases hg : Cache.get m k' with
        | none => simp [hm, Option.filter]
        | some v =>
          by_cases hf : fresh (clock k') v = true
          · simp [hm, Option.filter, hf]
          · simp [hm, Option.filter, hf]
      · simp [hm]
    · simp [hk]

/-- Pointwise description of the sweep for an arbitrary per-key clock. -/
theorem get_delMods (clock : String → Time) (c : Cache) (k : String) :
    Cache.get (_delMods clock c) k = (Cache.get c k).filter (fresh (clock k)) := by
  unfold _delMods
  rw [get_foldl_delModsStep]
  by_cases hm : k ∈ Cache.keys c
  · simp [hm]
  · simp [hm, Cache.get_eq_none_of_not_mem c k hm, Option.filter]

/-! ## Session set-up lemmas -/

theorem PostMessage_eq (wc : WebClaude2) (t : Transport)
    (ho : wc.organizationId ≠ "") (hc : wc.conversationId ≠ "") :
    PostMessage wc t = newRequest t := by
  simp [PostMessage, ho, hc]

theorem getOrganization_ok (wc wc1 : WebClaude2) (t : Transport) (b : OrgBody)
    (h : getOrganization wc t b = .ok wc1) :
    wc1.organizationId ≠ "" ∧ wc1.Retry = wc.Retry ∧ wc1.conversationId = wc.conversationId ∧
      wc1.mu = wc.mu ∧ wc1.mod = wc.mod := by
  unfold getOrganization at h
  split at h
  · cases h
  · split at h
    · cases h
    · cases h
    · split at h
      · cases h
      · rename_i first _
        simp only at h
        split at h
        · rename_i hcond
          split at h
          · rename_i s0 hs
            cases h
            rw [hs] at hcond
            simp [JVal.notNil, JVal.notEmptyString] at hcond
            simp [hcond]
          · cases h
        · cases h

theorem createConversation_ok (wc wc1 : WebClaude2) (t : Transport) (b : ConvBody)
    (h : createConversation wc t b = .ok wc1) :
    wc1.conversationId ≠ "" ∧ wc1.Retry = wc.Retry ∧ wc1.organizationId = wc.organizationId ∧
      wc1.mu = wc.mu ∧ wc1.mod = wc.mod := by
  unfold createConversation at h
  split at h
  · cases h
  · split at h
    · cases h
    · split at h
      · cases h
      · cases h
      · simp only at h
        split at h
        · rename_i hne
          cases h
          simp [hne]
        · cases h

theorem ReplyEnter_fields (wc : WebClaude2) :
    (ReplyEnter wc).mu = true ∧ (ReplyEnter wc).Retry = max wc.Retry 2 ∧
      (ReplyEnter wc).organizationId = wc.organizationId ∧
      (ReplyEnter wc).conversationId = wc.conversationId := by
  unfold ReplyEnter gRetry
  simp only
  refine ⟨?_, ?_, ?_, ?_⟩
  · split <;> split <;> rfl
  · split <;> split <;> simp <;> omega
  · split <;> split <;> rfl
  · split <;> split <;> rfl

/-- When the part of `Reply` before the loop goes through, both identifiers are
set, the budget is the clamped one, and the mutex is held. -/
theorem ReplySetup_ok (env : Env) (s s1 : State) (h : ReplySetup env s = .ok s1) :
    s1.wc.organizationId ≠ "" ∧ s1.wc.conversationId ≠ "" ∧
      s1.wc.Retry = max s.wc.Retry 2 ∧ s1.wc.mu = true ∧ s1.attempts = s.attempts := by
  unfold ReplySetup at h
  by_cases hmu : s.wc.mu = true
  · simp [hmu] at h
  · simp only [hmu] at h
    obtain ⟨e1, e2, -, e4⟩ := ReplyEnter_fields s.wc
    generalize ReplyEnter s.wc = wc0 at h e1 e2 e4
    have stepA : ∀ wcA, (if wc0.organizationId = "" then
        getOrganization wc0 env.orgTransport env.orgBody else Outcome.ok wc0) = .ok wcA →
        wcA.organizationId ≠ "" ∧ wcA.Retry = max s.wc.Retry 2 ∧ wcA.mu = true ∧
          wcA.conversationId = wc0.conversationId := by
      intro wcA hA
      by_cases ho : wc0.organizationId = ""
      · rw [if_pos ho] at hA
        obtain ⟨h1, h2, h3, h4, -⟩ := getOrganization_ok _ _ _ _ hA
        exact ⟨h1, h2.trans e2, h4.trans e1, h3⟩
      · rw [if_neg ho] at hA
        cases hA
        exact ⟨ho, e2, e1, rfl⟩
    have stepB : ∀ wcA wcB, (if wcA.conversationId = "" then
        createConversation wcA env.convTransport env.convBody else Outcome.ok wcA) = .ok wcB →
        wcB.conversationId ≠ "" ∧ wcB.Retry = wcA.Retry ∧ wcB.mu = wcA.mu ∧
          wcB.organizationId = wcA.organizationId := by
      intro wcA wcB hB
      by_cases hc : wcA.conversationId = ""
      · rw [if_pos hc] at hB
        obtain ⟨h1, h2, h3, h4, -⟩ := createConversation_ok _ _ _ _ hB
        exact ⟨h1, h2, h4, h3⟩
      · rw [if_neg hc] at hB
        cases hB
        exact ⟨hc, rfl, rfl, rfl⟩
    cases hA : (if wc0.organizationId = "" then
        getOrganization wc0 env.orgTransport env.orgBody else Outcome.ok wc0) with
    | err e => rw [hA] at h; cases h
    | panic m => rw [hA] at h; cases h
    | ok wcA =>
      rw [hA] at h
      simp only at h
      obtain ⟨a1, a2, a3, -⟩ := stepA wcA hA
      cases hB : (if wcA.conversationId = "" then
          createConversation wcA env.convTransport env.convBody else Outcome.ok wcA) with
      | err e => rw [hB] at h; cases h
      | panic m => rw [hB] at h; cases h
      | ok wcB =>
        rw [hB] at h
        simp only at h
        obtain ⟨b1, b2, b3, b4⟩ := stepB wcA wcB hB
        cases h
        simp only
        split <;> simp [b1, b2, b3, b4, a1, a2, a3]

/-! ## Retry loop lemmas -/

theorem retryLoop_spec (env : Env) : ∀ (fuel : Nat) (i : Int) (s : State),
    s.wc.organizationId ≠ "" → s.wc.conversationId ≠ "" → i ≤ s.wc.Retry →
    (s.wc.Retry - i).toNat < fuel → LoopSpec env i s (retryLoop env fuel i s) := by
  intro fuel
  induction fuel with
  | zero => intro i s _ _ _ hf; omega
  | succ fuel ih =>
    intro i s ho hc hi hf
    -- every way of going round the loop once more
    have again : ∀ s2 : State, s2.wc.Retry = s.wc.Retry →
        s2.wc.organizationId = s.wc.organizationId →
        s2.wc.conversationId = s.wc.conversationId →
        s2.attempts = s.attempts ++ [⟨i, s.wc.mod, s.wc.organizationId, s.wc.conversationId⟩] →
        i < s.wc.Retry → (∃ e, newRequest (env.post i) = .error e) →
        LoopSpec env i s (retryLoop env fuel (i + 1) s2) := by
      intro s2 hR hO hC hA hlt herr
      have hspec := ih (i + 1) s2 (hO ▸ ho) (hC ▸ hc) (by omega) (by omega)
      obtain ⟨n, new, h1, h2, h3, h4, h5, h6⟩ := hspec
      refine ⟨n, ⟨i, s.wc.mod, s.wc.organizationId, s.wc.conversationId⟩ :: new,
        by omega, by omega, ?_, ?_, ?_, ?_⟩
      · rw [h3, hA]; simp
      · simp only [List.length_cons]; push_cast; omega
      · intro j hj1 hj2
        by_cases hji : j = i
        · subst hji; exact herr
        · exact h5 j (by omega) hj2
      · rcases h6 with ⟨r, hr1, hr2⟩ | ⟨e, he1, he2, he3, he4, he5⟩
        · exact Or.inl ⟨r, hr1, hr2⟩
        · exact Or.inr ⟨e, he1, by omega, he3, by rw [← hO]; exact he4, he5⟩
    rw [retryLoop]
    simp only [hi, if_true, PostMessage_eq s.wc _ ho hc]
    cases hp : newRequest (env.post i) with
    | ok r =>
      refine ⟨i, [⟨i, s.wc.mod, s.wc.organizationId, s.wc.conversationId⟩],
        le_refl _, hi, rfl, by simp, ?_, Or.inl ⟨r, rfl, hp⟩⟩
      intro j hj1 hj2; omega
    | error err =>
      simp only
      by_cases hge : i ≥ s.wc.Retry
      · simp only [hge, if_true]
        have hiR : i = s.wc.Retry := by omega
        refine ⟨i, [⟨i, s.wc.mod, s.wc.organizationId, s.wc.conversationId⟩],
          le_refl _, hi, rfl, by simp, ?_, Or.inr ⟨err, rfl, hiR, hp, ?_, rfl⟩⟩
        · intro j hj1 hj2; omega
        · simp [Cache.get_delete]
      · simp only [hge, if_false]
        have hlt : i < s.wc.Retry := by omega
        split
        · split
          · apply again _ _ _ _ _ hlt ⟨err, hp⟩
            · simp only; split <;> rfl
            · simp only; split <;> rfl
            · simp only; split <;> rfl
            · rfl
          · exact again _ rfl rfl rfl rfl hlt ⟨err, hp⟩
        · exact again _ rfl rfl rfl rfl hlt ⟨err, hp⟩

theorem retryLoop_attempts (env : Env) : ∀ (fuel : Nat) (i : Int) (s : State),
    ∃ more, (retryLoop env fuel i s).2.attempts = s.attempts ++ more := by
  intro fuel
  induction fuel with
  | zero => intro i s; exact ⟨[], by simp [retryLoop]⟩
  | succ fuel ih =>
    intro i s
    have again : ∀ s2 : State, (∃ a, s2.attempts = s.attempts ++ [a]) →
        ∃ more, (retryLoop env fuel (i + 1) s2).2.attempts = s.attempts ++ more := by
      intro s2 ⟨a, ha⟩
      obtain ⟨more, hm⟩ := ih (i + 1) s2
      exact ⟨a :: more, by rw [hm, ha]; simp⟩
    rw [retryLoop]
    split
    · split
      · split
        · exact ⟨_, rfl⟩
        · split
          · split
            · exact again _ ⟨_, rfl⟩
            · exact again _ ⟨_, rfl⟩
          · exact again _ ⟨_, rfl⟩
      · exact ⟨_, rfl⟩
    · exact ⟨[], by simp⟩

/-- First turn of the loop when the primary model is rejected as invalid. -/
theorem retryLoop_first_invalid (env : Env) (k : Nat) (s : State) (shown : String)
    (ho : s.wc.organizationId ≠ "") (hc : s.wc.conversationId ≠ "") (hR : 2 ≤ s.wc.Retry)
    (hmod : s.wc.mod = Mod)
    (h1 : newRequest (env.post 1) = .error (.wrapper "Invalid model" shown)) :
    retryLoop env (k + 1) 1 s = retryLoop env k 2
      { wc := { s.wc with mod := Mod_V1 },
        cacheMods := Cache.put s.cacheMods s.wc.organizationId ⟨env.now 1, Mod_V1⟩,
        attempts := s.attempts ++ [⟨1, Mod, s.wc.organizationId, s.wc.conversationId⟩] } := by
  have h1R : (1 : Int) ≤ s.wc.Retry := by omega
  have h2R : ¬ (1 : Int) ≥ s.wc.Retry := by omega
  rw [retryLoop]
  simp only [h1R, if_true, PostMessage_eq s.wc _ ho hc, h1, h2R, if_false, GoError.asWrapper,
    hmod]
  rfl

/-! ## Claims on `Reply` -/

/-- C1: when the part of `Reply` before the loop has gone through (identifiers
resolved), the loop is entered with the primary model `claude-2.0`, and post
attempt 1 fails with a structured rejection whose message is exactly
`Invalid model`, then for every configured retry value a second attempt is made
and it carries the fallback model `claude-2.1`; and if attempt 2 returns a
response of status 200, `Reply` returns the channel and the memo cache entry of
the organisation holds `claude-2.1`. -/
theorem reply_invalid_model_fallback (env : Env) (s s1 : State) (shown : String)
    (hsetup : ReplySetup env s = .ok s1) (hmod : s1.wc.mod = Mod)
    (h1 : PostMessage s1.wc (env.post 1) = .error (.wrapper "Invalid model" shown)) :
    (∃ more, (Reply env s).2.attempts = s.attempts ++
        ⟨1, Mod, s1.wc.organizationId, s1.wc.conversationId⟩ ::
        ⟨2, Mod_V1, s1.wc.organizationId, s1.wc.conversationId⟩ :: more) ∧
    (∀ r2, newRequest (env.post 2) = .ok r2 → r2.StatusCode = 200 →
      (Reply env s).1 = .channel r2 ∧
      (Cache.get (Reply env s).2.cacheMods s1.wc.organizationId).map _mod.model
        = some Mod_V1) := by
  obtain ⟨ho, hc, hR, -, hatt⟩ := ReplySetup_ok env s s1 hsetup
  have hR2 : 2 ≤ s1.wc.Retry := by rw [hR]; omega
  rw [PostMessage_eq _ _ ho hc] at h1
  obtain ⟨k, hk⟩ : ∃ k, s1.wc.Retry.toNat + 1 = k + 1 + 1 := ⟨s1.wc.Retry.toNat - 1, by omega⟩
  have hloop := retryLoop_first_invalid env (k + 1) s1 shown ho hc hR2 hmod h1
  have hreply : Reply env s = ReplyPost env s1 := by simp [Reply, hsetup]
  rw [hreply]
  unfold ReplyPost
  rw [hk, hloop, retryLoop]
  simp only [hR2, if_true, PostMessage, ho, hc, if_false]
  constructor
  · cases hp : newRequest (env.post 2) with
    | ok r =>
      simp only
      split <;> exact ⟨[], by simp [hatt]⟩
    | error err =>
      simp only
      have again : ∀ s2 : State,
          s2.attempts = s1.attempts ++ [⟨1, Mod, s1.wc.organizationId, s1.wc.conversationId⟩]
            ++ [⟨2, Mod_V1, s1.wc.organizationId, s1.wc.conversationId⟩] →
          ∃ more, (retryLoop env k (2 + 1) s2).2.attempts = s.attempts ++
            ⟨1, Mod, s1.wc.organizationId, s1.wc.conversationId⟩ ::
            ⟨2, Mod_V1, s1.wc.organizationId, s1.wc.conversationId⟩ :: more := by
        intro s2 h2
        obtain ⟨more, hm⟩ := retryLoop_attempts env k (2 + 1) s2
        exact ⟨more, by rw [hm, h2, hatt]; simp⟩
      have fin : ∀ res : LoopExit × State,
          (∃ more, res.2.attempts = s.attempts ++
            ⟨1, Mod, s1.wc.organizationId, s1.wc.conversationId⟩ ::
            ⟨2, Mod_V1, s1.wc.organizationId, s1.wc.conversationId⟩ :: more) →
          ∃ more, (match res with
            | (.returned e, s1) => ((.error e : ReplyResult), s1)
            | (.outOfFuel, s1) => (.outOfFuel, s1)
            | (.left none, s1) =>
              (.panic "invalid memory address or nil pointer dereference", s1)
            | (.left (some response), s1) =>
              if response.StatusCode ≠ 200 then (.error (.text response.Text), s1)
              else (.channel response, s1)).2.attempts = s.attempts ++
            ⟨1, Mod, s1.wc.organizationId, s1.wc.conversationId⟩ ::
            ⟨2, Mod_V1, s1.wc.organizationId, s1.wc.conversationId⟩ :: more := by
        intro res hres
        obtain ⟨ex, st⟩ := res
        cases ex with
        | returned e => exact hres
        | outOfFuel => exact hres
        | left resp =>
          cases resp with
          | none => exact hres
          | some r => simp only; split <;> exact hres
      apply fin
      split
      · exact ⟨[], by simp [hatt]⟩
      · split
        · split
          · exact again _ rfl
          · exact again _ rfl
        · exact again _ rfl
  · intro r2 hr2 h200
    simp [hr2, h200, Cache.get_put]

/-- Witness of C1: a rejection of the primary model followed by a status-200 answer. -/
theorem reply_invalid_model_fallback_witness :
    (Reply (envWith (fun i => if i = 1 then rejectInvalidModel else accept200))
        (resolvedSession 0)).1 = .channel ⟨200, ""⟩ ∧
    (Cache.get (Reply (envWith (fun i => if i = 1 then rejectInvalidModel else accept200))
        (resolvedSession 0)).2.cacheMods "org").map _mod.model = some Mod_V1 :=
  (reply_invalid_model_fallback
    (envWith (fun i => if i = 1 then rejectInvalidModel else accept200)) (resolvedSession 0)
    { wc := ⟨true, 2, Mod, "org", "conv"⟩,
      cacheMods := [("org", ⟨1000, Mod⟩)], attempts := [] }
    "Invalid model" rfl rfl rfl).2 ⟨200, ""⟩ rfl rfl

/-- C2: once the part of `Reply` before the loop has gone through, for every
configured retry value `r` and every sequence of post outcomes in which the
attempts `1 .. max r 2` all fail (whatever the error), `Reply` makes exactly
`max r 2` attempts, returns no channel but the error of attempt `max r 2`,
and leaves no memo cache entry for the organisation of the session. -/
theorem reply_all_attempts_fail (env : Env) (s s1 : State)
    (hsetup : ReplySetup env s = .ok s1)
    (hfail : ∀ j, 1 ≤ j → j ≤ max s.wc.Retry 2 →
      ∃ e, PostMessage s1.wc (env.post j) = .error e) :
    ∃ e, PostMessage s1.wc (env.post (max s.wc.Retry 2)) = .error e ∧
      (Reply env s).1 = .error e ∧
      Cache.get (Reply env s).2.cacheMods s1.wc.organizationId = none ∧
      ∃ new, (Reply env s).2.attempts = s.attempts ++ new ∧
        (new.length : Int) = max s.wc.Retry 2 := by
  obtain ⟨ho, hc, hR, -, hatt⟩ := ReplySetup_ok env s s1 hsetup
  have hR2 : (1 : Int) ≤ s1.wc.Retry := by rw [hR]; omega
  have hspec := retryLoop_spec env (s1.wc.Retry.toNat + 1) 1 s1 ho hc hR2 (by omega)
  have hreply : Reply env s = ReplyPost env s1 := by simp [Reply, hsetup]
  obtain ⟨n, new, hn1, hn2, hnew, hlen, -, hexit⟩ := hspec
  rcases hexit with ⟨r, -, hr⟩ | ⟨e, he1, he2, he3, he4, -⟩
  · obtain ⟨e, he⟩ := hfail n hn1 (by rw [← hR]; exact hn2)
    rw [PostMessage_eq _ _ ho hc, hr] at he
    cases he
  · refine ⟨e, ?_, ?_, ?_, new, ?_, ?_⟩
    · rw [PostMessage_eq _ _ ho hc, ← hR, ← he2]; exact he3
    · rw [hreply]; unfold ReplyPost
      generalize retryLoop env (s1.wc.Retry.toNat + 1) 1 s1 = res at he1
      obtain ⟨ex, st⟩ := res
      simp only at he1
      subst he1
      rfl
    · rw [hreply]; unfold ReplyPost
      generalize retryLoop env (s1.wc.Retry.toNat + 1) 1 s1 = res at he1 he4
      obtain ⟨ex, st⟩ := res
      simp only at he1
      subst he1
      exact he4
    · rw [hreply]; unfold ReplyPost
      generalize retryLoop env (s1.wc.Retry.toNat + 1) 1 s1 = res at he1 hnew
      obtain ⟨ex, st⟩ := res
      simp only at he1
      subst he1
      rw [← hatt]
      exact hnew
    · rw [hlen, he2, hR]; omega

/-- Witness of C2: retry value 0 and a connection that fails at every attempt. -/
theorem reply_all_attempts_fail_witness :
    ∃ e, PostMessage ⟨true, 2, Mod, "org", "conv"⟩ connectionReset = .error e ∧
      (Reply (envWith (fun _ => connectionReset)) (resolvedSession 0)).1 = .error e ∧
      Cache.get (Reply (envWith (fun _ => connectionReset)) (resolvedSession 0)).2.cacheMods
        "org" = none ∧
      ∃ new, (Reply (envWith (fun _ => connectionReset)) (resolvedSession 0)).2.attempts
          = [] ++ new ∧ (new.length : Int) = max 0 2 :=
  reply_all_attempts_fail (envWith (fun _ => connectionReset)) (resolvedSession 0)
    { wc := ⟨true, 2, Mod, "org", "conv"⟩,
      cacheMods := [("org", ⟨1000, Mod⟩)], attempts := [] }
    rfl (fun _ _ _ => ⟨.text "connection reset", rfl⟩)

/-- C10: once the part of `Reply` before the loop has gone through, for every
configured retry value (zero and negative ones included) and every sequence of
post outcomes, the retry loop makes `n` attempts with `1 ≤ n ≤ max retry 2`,
every attempt before the `n`-th returned an error, and either `Reply` returned
inside the loop with the error of the last attempt, or the loop is left with
`response` holding the response of attempt `n`, which returned no error; so the
status check after the loop reads a response that is not nil. -/
theorem retry_loop_leaves_response (env : Env) (s s1 : State)
    (hsetup : ReplySetup env s = .ok s1) :
    ∃ (n : Int) (new : List PostAttempt),
      (retryLoop env (s1.wc.Retry.toNat + 1) 1 s1).2.attempts = s.attempts ++ new ∧
      (new.length : Int) = n ∧ 1 ≤ n ∧ n ≤ max s.wc.Retry 2 ∧
      (∀ j, 1 ≤ j → j < n → ∃ e, PostMessage s1.wc (env.post j) = .error e) ∧
      ((∃ r, (retryLoop env (s1.wc.Retry.toNat + 1) 1 s1).1 = .left (some r) ∧
          PostMessage s1.wc (env.post n) = .ok r ∧
          (Reply env s).1 =
            (if r.StatusCode ≠ 200 then .error (.text r.Text) else .channel r)) ∨
       (∃ e, (retryLoop env (s1.wc.Retry.toNat + 1) 1 s1).1 = .returned e ∧
          n = max s.wc.Retry 2 ∧ PostMessage s1.wc (env.post n) = .error e ∧
          (Reply env s).1 = .error e)) := by
  obtain ⟨ho, hc, hR, -, hatt⟩ := ReplySetup_ok env s s1 hsetup
  have hR2 : (1 : Int) ≤ s1.wc.Retry := by rw [hR]; omega
  have hspec := retryLoop_spec env (s1.wc.Retry.toNat + 1) 1 s1 ho hc hR2 (by omega)
  have hreply : Reply env s = ReplyPost env s1 := by simp [Reply, hsetup]
  obtain ⟨n, new, hn1, hn2, hnew, hlen, hbefore, hexit⟩ := hspec
  refine ⟨n, new, by rw [← hatt]; exact hnew, by rw [hlen]; omega, hn1,
    by rw [← hR]; exact hn2, ?_, ?_⟩
  · intro j hj1 hj2
    rw [PostMessage_eq _ _ ho hc]
    exact hbefore j hj1 hj2
  · rw [hreply]; unfold ReplyPost
    generalize retryLoop env (s1.wc.Retry.toNat + 1) 1 s1 = res at hexit
    obtain ⟨ex, st⟩ := res
    rcases hexit with ⟨r, hr1, hr2⟩ | ⟨e, he1, he2, he3, -, -⟩
    · simp only at hr1
      subst hr1
      refine Or.inl ⟨r, rfl, by rw [PostMessage_eq _ _ ho hc]; exact hr2, ?_⟩
      simp only
      split <;> simp_all
    · simp only at he1
      subst he1
      exact Or.inr ⟨e, rfl, by rw [he2, hR], by rw [PostMessage_eq _ _ ho hc]; exact he3, rfl⟩

/-- Witness of C10: a session resolved by look-up, retry value 0, a failed
first attempt and an accepted second one. -/
theorem retry_loop_leaves_response_witness :
    ∃ (n : Int) (new : List PostAttempt),
      (retryLoop (envWith (fun i => if i = 1 then connectionReset else accept200))
        ((2 : Int).toNat + 1) 1
        { wc := ⟨true, 2, Mod, "org", "conv"⟩,
          cacheMods := [("org", ⟨1000, Mod⟩)], attempts := [] }).2.attempts = [] ++ new ∧
      (new.length : Int) = n ∧ 1 ≤ n ∧ n ≤ max 0 2 ∧
      (∀ j, 1 ≤ j → j < n → ∃ e, PostMessage ⟨true, 2, Mod, "org", "conv"⟩
        (if j = 1 then connectionReset else accept200) = .error e) ∧
      ((∃ r, (retryLoop (envWith (fun i => if i = 1 then connectionReset else accept200))
            ((2 : Int).toNat + 1) 1
            { wc := ⟨true, 2, Mod, "org", "conv"⟩,
              cacheMods := [("org", ⟨1000, Mod⟩)], attempts := [] }).1 = .left (some r) ∧
          PostMessage ⟨true, 2, Mod, "org", "conv"⟩
            (if n = 1 then connectionReset else accept200) = .ok r ∧
          (Reply (envWith (fun i => if i = 1 then connectionReset else accept200)) newSession).1 =
            (if r.StatusCode ≠ 200 then .error (.text r.Text) else .channel r)) ∨
       (∃ e, (retryLoop (envWith (fun i => if i = 1 then connectionReset else accept200))
            ((2 : Int).toNat + 1) 1
            { wc := ⟨true, 2, Mod, "org", "conv"⟩,
              cacheMods := [("org", ⟨1000, Mod⟩)], attempts := [] }).1 = .returned e ∧
          n = max 0 2 ∧
          PostMessage ⟨true, 2, Mod, "org", "conv"⟩
            (if n = 1 then connectionReset else accept200) = .error e ∧
          (Reply (envWith (fun i => if i = 1 then connectionReset else accept200)) newSession).1
            = .error e)) :=
  retry_loop_leaves_response
    (envWith (fun i => if i = 1 then connectionReset else accept200)) newSession
    { wc := ⟨true, 2, Mod, "org", "conv"⟩,
      cacheMods := [("org", ⟨1000, Mod⟩)], attempts := [] } rfl

/-- C9 (evidence of the defect): a post answered with status 204 makes `Reply`
return an error while the session mutex is still held, so the next `Reply` on
the same session waits for ever; the sibling error paths (organisation look-up
failure, conversation creation failure, retries used up) do release it. -/
theorem reply_non200_keeps_mutex :
    (Reply (envWith (fun _ => answer204)) (resolvedSession 2)).1
        = .error (.text "no content") ∧
    (Reply (envWith (fun _ => answer204)) (resolvedSession 2)).2.wc.mu = true ∧
    (Reply (envWith (fun _ => answer204))
        (Reply (envWith (fun _ => answer204)) (resolvedSession 2)).2).1 = .blocked ∧
    (Reply (envOrg (.decoded [[]])) newSession).1
        = .error (.text "failed to fetch the `organizationId`") ∧
    (Reply (envOrg (.decoded [[]])) newSession).2.wc.mu = false ∧
    (Reply { envWith (fun _ => accept200) with convBody := .decoded [] } newSession).1
        = .error (.text "failed to fetch the `conversationId`") ∧
    (Reply { envWith (fun _ => accept200) with convBody := .decoded [] } newSession).2.wc.mu
        = false ∧
    (Reply (envWith (fun _ => connectionReset)) (resolvedSession 2)).1
        = .error (.text "connection reset") ∧
    (Reply (envWith (fun _ => connectionReset)) (resolvedSession 2)).2.wc.mu = false :=
  ⟨rfl, rfl, rfl, rfl, rfl, rfl, rfl, rfl, rfl⟩

/-! ## Claims on `getOrganization` -/

/-- What `getOrganization` does on a decoded body with a first element: it
succeeds exactly when the `uuid` of that element is a non-empty string, panics
when it is a value that is not a string, and returns an error otherwise. -/
theorem getOrganization_first (wc : WebClaude2) (t : Transport) (r : Response)
    (first : List (String × JVal)) (more : List (List (String × JVal)))
    (ht : newRequest t = .ok r) :
    getOrganization wc t (.decoded (first :: more)) =
      match anyAt first "uuid" with
      | .str id => if id = "" then .err (.text "failed to fetch the `organizationId`")
                   else .ok { wc with organizationId := id }
      | .null => .err (.text "failed to fetch the `organizationId`")
      | _ => .panic "interface conversion: interface is not string" := by
  unfold getOrganization
  rw [ht]
  simp only
  cases anyAt first "uuid" <;> simp [JVal.notNil, JVal.notEmptyString]

/-- C8 (evidence of the defect): on the empty array `getOrganization` panics at
`result[0]`, and on a first element whose `uuid` is a number it panics at the
type assertion; neither returns an error, and `Reply` ends in the panic. -/
theorem getOrganization_panics :
    getOrganization newSession.wc accept200 (.decoded [])
        = .panic "index out of range [0] with length 0" ∧
    getOrganization newSession.wc accept200 (.decoded [[("uuid", .num 5)]])
        = .panic "interface conversion: interface is not string" ∧
    (Reply (envOrg (.decoded [])) newSession).1
        = .panic "index out of range [0] with length 0" ∧
    (Reply (envOrg (.decoded [])) newSession).2.attempts = [] :=
  ⟨rfl, rfl, rfl, rfl⟩

/-! ## Claims on the memo cache -/

/-- C7: the eviction sweep `_delMods`, run at time `now`, removes exactly the
entries whose `lastUsed + 10 minutes` is strictly before `now` and leaves
every other entry unchanged; an entry last used 11 minutes ago is removed,
one last used 9 minutes ago survives, and one last used exactly 10 minutes ago
survives. -/
theorem delMods_removes_exactly_stale (now : Time) (c : Cache) :
    (∀ k, Cache.get (_delMods (fun _ => now) c) k =
      match Cache.get c k with
      | some v => if v.time + 10 * Minute < now then none else some v
      | none => none) ∧
    (∀ k v, Cache.get c k = some v → v.time = now - 11 * Minute →
      Cache.get (_delMods (fun _ => now) c) k = none) ∧
    (∀ k v, Cache.get c k = some v → v.time = now - 9 * Minute →
      Cache.get (_delMods (fun _ => now) c) k = some v) ∧
    (∀ k v, Cache.get c k = some v → v.time = now - 10 * Minute →
      Cache.get (_delMods (fun _ => now) c) k = some v) := by
  have key : ∀ k, Cache.get (_delMods (fun _ => now) c) k =
      match Cache.get c k with
      | some v => if v.time + 10 * Minute < now then none else some v
      | none => none := by
    intro k
    rw [get_delMods]
    cases Cache.get c k with
    | none => rfl
    | some v =>
      by_cases h : v.time + 10 * Minute < now
      · simp [Option.filter, fresh, Time.Before, Time.Add, h]
      · simp [Option.filter, fresh, Time.Before, Time.Add, h]
  refine ⟨key, ?_, ?_, ?_⟩
  · intro k v hk hv
    rw [key, hk]
    have : v.time + 10 * Minute < now := by
      rw [hv]; unfold Minute; linarith
    simp [this]
  · intro k v hk hv
    rw [key, hk]
    have : ¬ v.time + 10 * Minute < now := by
      rw [hv]; unfold Minute; linarith
    simp [this]
  · intro k v hk hv
    rw [key, hk]
    have : ¬ v.time + 10 * Minute < now := by
      rw [hv]; unfold Minute; linarith
    simp [this]

/-- Witness of C7: a sweep at minute 20 over entries last used at minutes 9, 11 and 10. -/
theorem delMods_removes_exactly_stale_witness :
    Cache.get (_delMods (fun _ => 20 * Minute)
      [("a", ⟨9 * Minute, Mod⟩), ("b", ⟨11 * Minute, Mod_V1⟩), ("c", ⟨10 * Minute, Mod⟩)]) "a"
        = none ∧
    Cache.get (_delMods (fun _ => 20 * Minute)
      [("a", ⟨9 * Minute, Mod⟩), ("b", ⟨11 * Minute, Mod_V1⟩), ("c", ⟨10 * Minute, Mod⟩)]) "b"
        = some ⟨11 * Minute, Mod_V1⟩ ∧
    Cache.get (_delMods (fun _ => 20 * Minute)
      [("a", ⟨9 * Minute, Mod⟩), ("b", ⟨11 * Minute, Mod_V1⟩), ("c", ⟨10 * Minute, Mod⟩)]) "c"
        = some ⟨10 * Minute, Mod⟩ :=
  ⟨(delMods_removes_exactly_stale (20 * Minute)
      [("a", ⟨9 * Minute, Mod⟩), ("b", ⟨11 * Minute, Mod_V1⟩), ("c", ⟨10 * Minute, Mod⟩)]).2.1
      "a" ⟨9 * Minute, Mod⟩ rfl (by decide),
   (delMods_removes_exactly_stale (20 * Minute)
      [("a", ⟨9 * Minute, Mod⟩), ("b", ⟨11 * Minute, Mod_V1⟩), ("c", ⟨10 * Minute, Mod⟩)]).2.2.1
      "b" ⟨11 * Minute, Mod_V1⟩ rfl (by decide),
   (delMods_removes_exactly_stale (20 * Minute)
      [("a", ⟨9 * Minute, Mod⟩), ("b", ⟨11 * Minute, Mod_V1⟩), ("c", ⟨10 * Minute, Mod⟩)]).2.2.2
      "c" ⟨10 * Minute, Mod⟩ rfl (by decide)⟩

/-! ## Stream parser lemmas -/

theorem handle_more (decode : Decoder) (o c : Bytes) (e : Option GoError) :
    handle decode o ⟨c, true, e⟩ = ⟨o ++ c, [], false⟩ := by
  simp [handle]

/-- A notification sent by `handle` is alone, and carries an error only when
`handle` ends the polling. -/
theorem handle_sent (decode : Decoder) (o : Bytes) (r : ReadResult) :
    (handle decode o r).sent = [] ∨
      ∃ x, (handle decode o r).sent = [x] ∧
        ((handle decode o r).stop = true ∨ x.isError = false) := by
  unfold handle
  simp only
  split
  · exact Or.inl rfl
  · split
    · exact Or.inl rfl
    · split
      · exact Or.inr ⟨_, rfl, Or.inl rfl⟩
      · split
        · exact Or.inl rfl
        · split
          · exact Or.inl rfl
          · split
            · exact Or.inl rfl
            · exact Or.inr ⟨_, rfl, Or.inr rfl⟩

/-- After a completed line that does not end the polling the buffer is empty. -/
theorem handle_original (decode : Decoder) (o : Bytes) (r : ReadResult)
    (hm : r.hasMore = false) (hs : (handle decode o r).stop = false) :
    (handle decode o r).original = [] := by
  obtain ⟨line, hasMore, err⟩ := r
  simp only at hm
  subst hm
  cases err with
  | some e =>
    by_cases he : e = GoError.eof
    · simp [handle, he] at hs
    · simp [handle, he] at hs
  | none =>
    unfold handle
    simp only [Bool.false_eq_true, if_false]
    split
    · rename_i h; simp at h
    · split
      · rfl
      · split
        · rfl
        · split <;> rfl

/-- Reads that report more data pending only grow the buffer. -/
theorem resolveLoop_chunks (decode : Decoder) (chunks : List Bytes) (o : Bytes)
    (rest : List Tick) :
    resolveLoop decode o (chunks.map (fun c => Tick.read ⟨c, true, none⟩) ++ rest)
      = resolveLoop decode (o ++ chunks.flatten) rest := by
  induction chunks generalizing o with
  | nil => simp
  | cons c cs ih =>
    simp only [List.map_cons, List.cons_append, List.flatten_cons]
    rw [resolveLoop, handle_more]
    simp only [Bool.false_eq_true, if_false, List.nil_append]
    rw [ih, List.append_assoc]

/-- A line read in pieces is handled as the same line read at once. -/
theorem resolveLoop_line (decode : Decoder) (l : Line) (o : Bytes) (rest : List Tick) :
    resolveLoop decode o (l.reads ++ rest)
      = resolveLoop decode o (Tick.read ⟨l.bytes, false, l.err⟩ :: rest) := by
  unfold Line.reads Line.bytes
  rw [List.append_assoc, resolveLoop_chunks]
  simp only [List.singleton_append]
  rw [resolveLoop, resolveLoop]
  have hh : handle decode (o ++ l.chunks.flatten) ⟨l.last, false, l.err⟩
      = handle decode o ⟨l.chunks.flatten ++ l.last, false, l.err⟩ := by
    simp [handle, List.append_assoc]
  rw [hh]

theorem resolveLoop_congr (decode : Decoder) (A B : List Tick)
    (h : ∀ o, resolveLoop decode o A = resolveLoop decode o B) (pre : List Tick) :
    ∀ o, resolveLoop decode o (pre ++ A) = resolveLoop decode o (pre ++ B) := by
  induction pre with
  | nil => intro o; simpa using h o
  | cons t pre ih =>
    intro o
    cases t with
    | done => simp [resolveLoop]
    | read r =>
      simp only [List.cons_append]
      rw [resolveLoop, resolveLoop]
      simp only [ih]

/-- After a whole line, what follows matters only through its run from the
empty buffer. -/
theorem resolveLoop_line_congr (decode : Decoder) (l : Line) (A B : List Tick)
    (h : resolveLoop decode [] A = resolveLoop decode [] B) :
    resolveLoop decode [] (l.reads ++ A) = resolveLoop decode [] (l.reads ++ B) := by
  rw [resolveLoop_line, resolveLoop_line, resolveLoop, resolveLoop]
  by_cases hs : (handle decode [] ⟨l.bytes, false, l.err⟩).stop = true
  · simp [hs]
  · have hs2 : (handle decode [] ⟨l.bytes, false, l.err⟩).stop = false := by simpa using hs
    simp only [hs2, Bool.false_eq_true, if_false]
    rw [handle_original decode [] _ rfl hs2, h]

/-- A completed line read without error that is not a data frame sends nothing
and leaves the polling going with an empty buffer. -/
theorem handle_discarded (decode : Decoder) (b : Bytes) (h : isFrame decode b = false) :
    handle decode [] ⟨b, false, none⟩ = ⟨[], [], false⟩ := by
  unfold isFrame at h
  unfold handle
  simp only [List.nil_append, Bool.false_eq_true, if_false]
  have hne : ¬ ((none : Option GoError) = some GoError.eof) := by simp
  simp only [hne, if_false]
  by_cases hp : bytesHasPrefix b block = true
  · by_cases hsfx : bytesHasSuffix b closeBrace = true
    · simp only [hp, hsfx, Bool.true_and] at h
      cases hd : decode (bytesTrimPrefix b block) with
      | none => simp [hp, hsfx, hd]
      | some ev => simp [hd] at h
    · simp [hp, hsfx]
  · simp [hp]

/-- A data frame read without error sends its text and its bytes without the marker. -/
theorem handle_frame (decode : Decoder) (b : Bytes) (ev : webClaude2Response)
    (hp : bytesHasPrefix b block = true) (hsfx : bytesHasSuffix b closeBrace = true)
    (hd : decode (bytesTrimPrefix b block) = some ev) :
    handle decode [] ⟨b, false, none⟩ =
      ⟨[], [⟨ev.Completion, bytesTrimPrefix b block, none⟩],
        decide (ev.StopReason = "stop_sequence")⟩ := by
  unfold handle
  simp [hp, hsfx, hd]

theorem resolveLoop_discarded (decode : Decoder) (l : Line) (rest : List Tick)
    (he : l.err = none) (h : isFrame decode l.bytes = false) :
    resolveLoop decode [] (l.reads ++ rest) = resolveLoop decode [] rest := by
  rw [resolveLoop_line, resolveLoop, he, handle_discarded decode _ h]
  simp

theorem streamTicks_cons (it : Item) (items : List Item) :
    streamTicks (it :: items) = it.ticks ++ streamTicks items := by
  simp [streamTicks]

theorem resolveLoop_filter_discarded (decode : Decoder) (items : List Item) (tail : List Tick) :
    resolveLoop decode [] (streamTicks items ++ tail) =
      resolveLoop decode []
        (streamTicks (items.filter (fun it => !it.discarded decode)) ++ tail) := by
  induction items with
  | nil => rfl
  | cons it items ih =>
    by_cases hd : it.discarded decode = true
    · have hf : (it :: items).filter (fun it => !it.discarded decode)
          = items.filter (fun it => !it.discarded decode) := by
        simp [List.filter_cons, hd]
      rw [hf, ← ih, streamTicks_cons, List.append_assoc]
      cases it with
      | cancel => simp [Item.discarded] at hd
      | line l =>
        simp only [Item.discarded, Bool.and_eq_true, Option.isNone_iff_eq_none,
          Bool.not_eq_true'] at hd
        exact resolveLoop_discarded decode l _ hd.1 hd.2
    · have hf : (it :: items).filter (fun it => !it.discarded decode)
          = it :: items.filter (fun it => !it.discarded decode) := by
        simp [List.filter_cons, hd]
      rw [hf, streamTicks_cons, streamTicks_cons, List.append_assoc, List.append_assoc]
      cases it with
      | cancel => simp [Item.ticks, resolveLoop]
      | line l => exact resolveLoop_line_congr decode l _ _ ih

/-- An error notification is the last one sent, and the channel is closed after it. -/
theorem resolveLoop_error_last (decode : Decoder) : ∀ (ticks : List Tick) (o : Bytes)
    (front : List PartialResponse) (p : PartialResponse) (back : List PartialResponse),
    (resolveLoop decode o ticks).sent = front ++ p :: back → p.isError = true →
    back = [] ∧ (resolveLoop decode o ticks).closed = true := by
  intro ticks
  induction ticks with
  | nil =>
    intro o front p back h _
    simp [resolveLoop] at h
  | cons t rest ih =>
    intro o front p back h hp
    cases t with
    | done =>
      simp only [resolveLoop] at h ⊢
      cases front with
      | nil => simp at h; exact ⟨h.2, trivial⟩
      | cons x xs => simp at h
    | read r =>
      rw [resolveLoop] at h ⊢
      by_cases hs : (handle decode o r).stop = true
      · simp only [hs, if_true] at h ⊢
        rcases handle_sent decode o r with h0 | ⟨x, hx, -⟩
        · rw [h0] at h; simp at h
        · rw [hx] at h
          cases front with
          | nil => simp at h; exact ⟨h.2, trivial⟩
          | cons y ys => simp at h
      · simp only [Bool.not_eq_true] at hs
        simp only [hs, Bool.false_eq_true, if_false] at h ⊢
        rcases handle_sent decode o r with h0 | ⟨x, hx, hx2⟩
        · rw [h0, List.nil_append] at h
          exact ih _ front p back h hp
        · rw [hx] at h
          have hxe : x.isError = false := by
            rcases hx2 with h1 | h1
            · rw [hs] at h1; cases h1
            · exact h1
          cases front with
          | nil =>
            simp only [List.singleton_append, List.nil_append, List.cons.injEq] at h
            rw [h.1, hp] at hxe
            cases hxe
          | cons y ys =>
            simp only [List.singleton_append, List.cons_append, List.cons.injEq] at h
            exact ih _ ys p back h.2 hp

/-- At most one notification of a run carries an error. -/
theorem resolveLoop_error_count (decode : Decoder) : ∀ (ticks : List Tick) (o : Bytes),
    ((resolveLoop decode o ticks).sent.filter PartialResponse.isError).length ≤ 1 := by
  intro ticks
  induction ticks with
  | nil => intro o; simp [resolveLoop]
  | cons t rest ih =>
    intro o
    cases t with
    | done => simp [resolveLoop, PartialResponse.isError]
    | read r =>
      rw [resolveLoop]
      by_cases hs : (handle decode o r).stop = true
      · simp only [hs, if_true]
        rcases handle_sent decode o r with h0 | ⟨x, hx, -⟩
        · rw [h0]; simp
        · rw [hx]
          exact le_trans (List.length_filter_le _ _) (by simp)
      · simp only [Bool.not_eq_true] at hs
        simp only [hs, Bool.false_eq_true, if_false]
        rcases handle_sent decode o r with h0 | ⟨x, hx, hx2⟩
        · rw [h0, List.nil_append]
          exact ih _
        · have hxe : x.isError = false := by
            rcases hx2 with h1 | h1
            · rw [hs] at h1; cases h1
            · exact h1
          rw [hx]
          simp only [List.singleton_append, List.filter_cons, hxe, Bool.false_eq_true, if_false]
          exact ih _

/-- A turn that always ends the run with the single notification `n` does so
after any run that is still going. -/
theorem resolveLoop_terminal (decode : Decoder) (t : Tick) (after : List Tick)
    (n : PartialResponse)
    (ht : ∀ o, resolveLoop decode o (t :: after) = ⟨[n], true⟩) :
    ∀ (before : List Tick) (o : Bytes), (resolveLoop decode o before).closed = false →
      resolveLoop decode o (before ++ t :: after)
        = ⟨(resolveLoop decode o before).sent ++ [n], true⟩ := by
  intro before
  induction before with
  | nil => intro o _; simp [resolveLoop, ht]
  | cons b bs ih =>
    intro o hopen
    cases b with
    | done => simp [resolveLoop] at hopen
    | read r =>
      simp only [List.cons_append]
      rw [resolveLoop] at hopen ⊢
      rw [resolveLoop]
      by_cases hs : (handle decode o r).stop = true
      · simp [hs] at hopen
      · simp only [hs, if_false] at hopen ⊢
        rw [ih _ hopen]
        simp

theorem resolveLoop_done (decode : Decoder) (after : List Tick) (o : Bytes) :
    resolveLoop decode o (Tick.done :: after)
      = ⟨[⟨"", [], some (GoError.text "resolve timeout")⟩], true⟩ := by
  simp [resolveLoop]

theorem resolveLoop_read_error (decode : Decoder) (line : Bytes) (e : GoError)
    (he : e ≠ GoError.eof) (after : List Tick) (o : Bytes) :
    resolveLoop decode o (Tick.read ⟨line, false, some e⟩ :: after)
      = ⟨[⟨"", [], some e⟩], true⟩ := by
  simp [resolveLoop, handle, he]

/-! ## Claims on the stream parser -/

theorem resolveLoop_frames (decode : Decoder) (frames : List (Line × webClaude2Response))
    (rest : List Tick)
    (hframes : ∀ f ∈ frames, f.1.err = none ∧ bytesHasPrefix f.1.bytes block = true ∧
      bytesHasSuffix f.1.bytes closeBrace = true ∧
      decode (bytesTrimPrefix f.1.bytes block) = some f.2) :
    resolveLoop decode [] (streamTicks (frames.map (fun f => Item.line f.1)) ++
        Tick.read ⟨[], false, some GoError.eof⟩ :: rest) =
      ⟨framesUntilStop (frames.map (fun f => (bytesTrimPrefix f.1.bytes block, f.2))), true⟩ := by
  induction frames with
  | nil => simp [streamTicks, resolveLoop, handle, framesUntilStop]
  | cons f fs ih =>
    obtain ⟨he, hp, hsfx, hd⟩ := hframes f (List.mem_cons_self _ _)
    have ih2 := ih (fun g hg => hframes g (List.mem_cons_of_mem _ hg))
    simp only [List.map_cons, streamTicks_cons, Item.ticks, List.append_assoc]
    rw [resolveLoop_line, resolveLoop, he, handle_frame decode _ f.2 hp hsfx hd]
    simp only [framesUntilStop]
    by_cases hstop : f.2.StopReason = "stop_sequence"
    · simp [hstop]
    · simp only [hstop, decide_False, Bool.false_eq_true, if_false]
      rw [ih2]
      simp

/-- C3: for every stream read without error or cancellation up to end-of-stream
whose lines (each in one or several physical reads) are all data frames, that
is, start with the marker, end with a closing brace and decode, `resolve` sends
exactly one notification per frame, in order, carrying the completion text and
the bytes after the marker, up to and including the first frame whose
`stop_reason` is exactly `stop_sequence` (all frames when there is none),
sends nothing for later frames, and closes the channel.  For the fragments
`Hel` and `lo`, the second with `stop_sequence`, the texts concatenate to
`Hello`. -/
theorem resolve_frames_until_stop (decode : Decoder)
    (frames : List (Line × webClaude2Response)) (rest : List Tick)
    (hframes : ∀ f ∈ frames, f.1.err = none ∧ bytesHasPrefix f.1.bytes block = true ∧
      bytesHasSuffix f.1.bytes closeBrace = true ∧
      decode (bytesTrimPrefix f.1.bytes block) = some f.2) :
    resolve decode (streamTicks (frames.map (fun f => Item.line f.1)) ++
        Tick.read ⟨[], false, some GoError.eof⟩ :: rest) =
      ⟨framesUntilStop (frames.map (fun f => (bytesTrimPrefix f.1.bytes block, f.2))), true⟩ ∧
    (∀ l1 l2 e1 e2, frames = [(l1, e1), (l2, e2)] →
      e1.Completion = "Hel" → e1.StopReason ≠ "stop_sequence" →
      e2.Completion = "lo" → e2.StopReason = "stop_sequence" →
      ((resolve decode (streamTicks (frames.map (fun f => Item.line f.1)) ++
        Tick.read ⟨[], false, some GoError.eof⟩ :: rest)).sent.map
          PartialResponse.Text) = ["Hel", "lo"] ∧
      String.join ((resolve decode (streamTicks (frames.map (fun f => Item.line f.1)) ++
        Tick.read ⟨[], false, some GoError.eof⟩ :: rest)).sent.map
          PartialResponse.Text) = "Hello") := by
  have main := resolveLoop_frames decode frames rest hframes
  refine ⟨main, ?_⟩
  intro l1 l2 e1 e2 hfr h1 h2 h3 h4
  unfold resolve
  rw [main, hfr]
  simp only [List.map_cons, List.map_nil, framesUntilStop, h1, h2, h3, h4, if_true, if_false]
  decide

/-- Witness of C3: the frames `Hel` (one read) and `lo` with `stop_sequence`
(two reads), then end-of-stream. -/
theorem resolve_frames_until_stop_witness :
    ((resolve exampleDecoder (streamTicks
        ([(lineA, event "Hel" ""), (lineB, event "lo" "stop_sequence")].map
          (fun f => Item.line f.1)) ++
        Tick.read ⟨[], false, some GoError.eof⟩ :: [])).sent.map
          PartialResponse.Text) = ["Hel", "lo"] ∧
    String.join ((resolve exampleDecoder (streamTicks
        ([(lineA, event "Hel" ""), (lineB, event "lo" "stop_sequence")].map
          (fun f => Item.line f.1)) ++
        Tick.read ⟨[], false, some GoError.eof⟩ :: [])).sent.map
          PartialResponse.Text) = "Hello" :=
  (resolve_frames_until_stop exampleDecoder
    [(lineA, event "Hel" ""), (lineB, event "lo" "stop_sequence")] []
    (by decide)).2 lineA lineB (event "Hel" "") (event "lo" "stop_sequence")
    rfl rfl (by decide) rfl rfl

/-- C4: for every logical line and every way of splitting it into two or more
consecutive physical reads, all but the last reporting more data pending, in
any context without cancellation in between, `resolve` behaves exactly as when
the same line arrives in a single read.  The frame `data: ` + `splitJson` read
as `splitHead` then `splitTail` gives exactly one notification. -/
theorem split_line_same_as_single (decode : Decoder) (before after : List Tick)
    (c : Bytes) (cs : List Bytes) (last : Bytes) (err : Option GoError) :
    resolve decode (before ++ ((Line.mk (c :: cs) last err).reads ++ after)) =
      resolve decode (before ++
        (Tick.read ⟨(c :: cs).flatten ++ last, false, err⟩ :: after)) ∧
    (∀ ev, decode splitJson = some ev →
      (resolve decode [Tick.read ⟨splitHead, true, none⟩,
          Tick.read ⟨splitTail, false, none⟩]).sent = [⟨ev.Completion, splitJson, none⟩]) := by
  constructor
  · unfold resolve
    apply resolveLoop_congr
    intro o
    exact resolveLoop_line decode (Line.mk (c :: cs) last err) o after
  · intro ev hev
    have hl := resolveLoop_line decode (Line.mk [splitHead] splitTail none) [] []
    have hb : (Line.mk [splitHead] splitTail none).bytes = block ++ splitJson := by decide
    have hreads : (Line.mk [splitHead] splitTail none).reads ++ []
        = [Tick.read ⟨splitHead, true, none⟩, Tick.read ⟨splitTail, false, none⟩] := rfl
    have htrim : bytesTrimPrefix (block ++ splitJson) block = splitJson := by decide
    unfold resolve
    rw [← hreads, hl, hb, resolveLoop,
      handle_frame decode (block ++ splitJson) ev (by decide) (by decide) (by rw [htrim]; exact hev)]
    simp only [resolveLoop, htrim]
    split <;> simp

/-- Witness of C4: the split example line with a decoder that knows its JSON text. -/
theorem split_line_same_as_single_witness :
    (resolve exampleDecoder [Tick.read ⟨splitHead, true, none⟩,
        Tick.read ⟨splitTail, false, none⟩]).sent = [⟨"x", splitJson, none⟩] :=
  (split_line_same_as_single exampleDecoder [] [] splitHead [] splitTail none).2
    (event "x" "") (by decide)

/-- Lines read without error, some of them frames and some not, then
end-of-stream: the frames, and only they, are sent in order up to the first
`stop_sequence`. -/
theorem resolveLoop_mixed (decode : Decoder) (lines : List Line) (rest : List Tick)
    (hlines : ∀ l ∈ lines, l.err = none) :
    resolveLoop decode [] (streamTicks (lines.map Item.line) ++
        Tick.read ⟨[], false, some GoError.eof⟩ :: rest) =
      ⟨framesUntilStop (lines.filterMap (frameOf decode)), true⟩ := by
  induction lines with
  | nil => simp [streamTicks, resolveLoop, handle, framesUntilStop]
  | cons l ls ih =>
    have he := hlines l (List.mem_cons_self _ _)
    have ih2 := ih (fun g hg => hlines g (List.mem_cons_of_mem _ hg))
    simp only [List.map_cons, streamTicks_cons, Item.ticks, List.append_assoc]
    by_cases hf : isFrame decode l.bytes = true
    · have hf2 := hf
      unfold isFrame at hf2
      simp only [Bool.and_eq_true] at hf2
      obtain ⟨⟨hp, hsfx⟩, hsome⟩ := hf2
      obtain ⟨ev, hd⟩ := Option.isSome_iff_exists.mp hsome
      have hfo : frameOf decode l = some (bytesTrimPrefix l.bytes block, ev) := by
        simp [frameOf, hf, hd]
      rw [resolveLoop_line, resolveLoop, he, handle_frame decode _ ev hp hsfx hd]
      simp only [List.filterMap_cons, hfo, framesUntilStop]
      by_cases hstop : ev.StopReason = "stop_sequence"
      · simp [hstop]
      · simp only [hstop, decide_False, Bool.false_eq_true, if_false]
        rw [ih2]
        simp
    · have hf2 : isFrame decode l.bytes = false := by simpa using hf
      have hfo : frameOf decode l = none := by simp [frameOf, hf2]
      rw [resolveLoop_discarded decode l _ he hf2, ih2]
      simp only [List.filterMap_cons, hfo]

/-- C5: a completed line, read without error, that does not start with the
marker, does not end with a closing brace, or whose remainder does not decode,
sends nothing and does not end the stream.  For every stream of lines and
cancellations (followed by any further turns), `resolve` sends the same
notifications, and ends in the same way, as on the stream with all such lines
removed; and on every stream of lines read without error up to end-of-stream,
whatever lines among them are not frames, the frames still arrive, each once
and in stream order, up to and including the first `stop_sequence`. -/
theorem discarded_lines_are_skipped (decode : Decoder) (items : List Item) (tail : List Tick) :
    resolve decode (streamTicks items ++ tail) =
      resolve decode (streamTicks (items.filter (fun it => !it.discarded decode)) ++ tail) ∧
    (∀ (l : Line) (rest : List Tick), l.err = none → isFrame decode l.bytes = false →
      resolve decode (l.reads ++ rest) = resolve decode rest) ∧
    (∀ (lines : List Line) (rest : List Tick), (∀ l ∈ lines, l.err = none) →
      resolve decode (streamTicks (lines.map Item.line) ++
          Tick.read ⟨[], false, some GoError.eof⟩ :: rest) =
        ⟨framesUntilStop (lines.filterMap (frameOf decode)), true⟩) :=
  ⟨resolveLoop_filter_discarded decode items tail,
   fun l rest he hf => resolveLoop_discarded decode l rest he hf,
   fun lines rest hlines => resolveLoop_mixed decode lines rest hlines⟩

/-- Witness of C5: a keep-alive comment and an undecodable frame between the
frames `Hel` and `lo`; both frames arrive, in order, and nothing else. -/
theorem discarded_lines_are_skipped_witness :
    resolve exampleDecoder (streamTicks
        ([lineA, lineComment, ⟨[], ascii "data: \x7bC\x7d", none⟩, lineB].map Item.line) ++
        Tick.read ⟨[], false, some GoError.eof⟩ :: []) =
      ⟨[⟨"Hel", ascii "\x7bA\x7d", none⟩, ⟨"lo", ascii "\x7bB\x7d", none⟩], true⟩ :=
  ((discarded_lines_are_skipped exampleDecoder [] []).2.2
    [lineA, lineComment, ⟨[], ascii "data: \x7bC\x7d", none⟩, lineB] []
    (by decide)).trans (by decide)

/-- C6: for every sequence of read outcomes and cancellations, at most one
notification sent by `resolve` carries an error, and one that does is the last
notification and the channel is closed after it; a cancellation seen at a turn
of the loop, and a read error other than end-of-stream on a read that completes
a line, each add exactly one error notification to what a still-running parser
has sent and close the channel.  In particular a cancellation after the first
fragment gives one text notification, then one error notification, and nothing
more. -/
theorem resolve_error_is_single_and_last (decode : Decoder) (ticks : List Tick) :
    (((resolve decode ticks).sent.filter PartialResponse.isError).length ≤ 1) ∧
    (∀ front p back, (resolve decode ticks).sent = front ++ p :: back → p.isError = true →
      back = [] ∧ (resolve decode ticks).closed = true) ∧
    (∀ after, (resolve decode ticks).closed = false →
      resolve decode (ticks ++ Tick.done :: after) =
        ⟨(resolve decode ticks).sent ++ [⟨"", [], some (GoError.text "resolve timeout")⟩], true⟩ ∧
      (resolve decode ticks).sent.filter PartialResponse.isError = []) ∧
    (∀ after line e, e ≠ GoError.eof → (resolve decode ticks).closed = false →
      resolve decode (ticks ++ Tick.read ⟨line, false, some e⟩ :: after) =
        ⟨(resolve decode ticks).sent ++ [⟨"", [], some e⟩], true⟩) ∧
    (∀ (l : Line) (ev : webClaude2Response) after, ticks = l.reads ++ Tick.done :: after →
      l.err = none → bytesHasPrefix l.bytes block = true →
      bytesHasSuffix l.bytes closeBrace = true →
      decode (bytesTrimPrefix l.bytes block) = some ev → ev.StopReason ≠ "stop_sequence" →
      resolve decode ticks =
        ⟨[⟨ev.Completion, bytesTrimPrefix l.bytes block, none⟩,
          ⟨"", [], some (GoError.text "resolve timeout")⟩], true⟩) := by
  refine ⟨resolveLoop_error_count decode ticks [], ?_, ?_, ?_, ?_⟩
  · intro front p back h hp
    exact resolveLoop_error_last decode ticks [] front p back h hp
  · intro after hopen
    refine ⟨resolveLoop_terminal decode Tick.done after _
      (resolveLoop_done decode after) ticks [] hopen, ?_⟩
    rw [List.filter_eq_nil_iff]
    intro p hp hpe
    obtain ⟨front, back, hsplit⟩ := List.append_of_mem hp
    have := (resolveLoop_error_last decode ticks [] front p back hsplit hpe).2
    unfold resolve at hopen
    rw [hopen] at this
    cases this
  · intro after line e he hopen
    exact resolveLoop_terminal decode _ after _
      (resolveLoop_read_error decode line e he after) ticks [] hopen
  · intro l ev after hticks he hp hsfx hd hstop
    unfold resolve
    rw [hticks, resolveLoop_line, resolveLoop, he, handle_frame decode _ ev hp hsfx hd]
    simp [hstop, resolveLoop]

/-- Witness of C6: the frame `Hel`, then a cancellation, then more input that
is never read. -/
theorem resolve_error_is_single_and_last_witness :
    resolve exampleDecoder (lineA.reads ++ Tick.done :: lineB.reads) =
      ⟨[⟨"Hel", ascii "\x7bA\x7d", none⟩,
        ⟨"", [], some (GoError.text "resolve timeout")⟩], true⟩ :=
  (resolve_error_is_single_and_last exampleDecoder
    (lineA.reads ++ Tick.done :: lineB.reads)).2.2.2.2 lineA (event "Hel" "") lineB.reads
    rfl rfl (by decide) (by decide) (by decide) (by decide)

end ClaudeApi
